import Mathlib

/-!
# recipes-api: the handlers of `handlers/recipeHandler.go` over an explicit world

The five gin handlers talk to two external collaborators, a MongoDB collection
and a Redis client.  Both are modelled as explicit state (`World`): the
collection is the list of its raw BSON documents, in the order a full scan
yields them, and the Redis keyspace is a finite map from keys to string values.
Whatever a request cannot decide by itself (an infrastructure failure, the
fresh ObjectID, the clock) is an explicit input (`Env`).  A handler is a pure
function from `Env`, `World` and the request to an `Outcome`: the HTTP
response, the world afterwards, and the external calls it made, in order.

What is taken from the collaborators' own contracts: a command that fails
changes nothing; `_id` is unique within a collection, so `InsertOne` refuses a
document whose `_id` is taken; a `time.Time` is stored as a BSON DateTime, which
counts whole milliseconds; `ObjectIDFromHex` accepts exactly the strings of 24
hex digits.  The JSON codec of the cached listing is a parameter (`JSONCodec`).
-/

namespace Recipes

/-! ## ObjectID and its hex form (`primitive.ObjectID`, `primitive.ObjectIDFromHex`) -/

/-- The errors that reach a handler. -/
inductive Error
  /-- Value `redis.Nil`: the key does not exist. -/
  | redisNil
  /-- Value `primitive.ErrInvalidHex`: the string is not 24 bytes long. -/
  | invalidHex
  /-- Type `hex.InvalidByteError`: a character that is no hex digit. -/
  | invalidByte (c : Char)
  /-- Value `hex.ErrLength`: odd number of hex digits. -/
  | hexLength
  /-- Value `mongo.ErrNoDocuments`. -/
  | noDocuments
  /-- A write to the collection was refused: the `_id` is already taken. -/
  | duplicateKey
  /-- A BSON value of a type the target struct field does not accept. -/
  | decodeType (key : String)
  /-- Any other failure of an external call or of a codec, with its message. -/
  | other (msg : String)
  deriving DecidableEq, Repr

/-- Type `primitive.ObjectID` is `[12]byte`. -/
structure ObjectID where
  bytes : List (Fin 256)
  size : bytes.length = 12
  deriving DecidableEq, Repr

/-- Digit table of `encoding/hex`: `"0123456789abcdef"`. -/
def hextable : List Char :=
  ['0', '1', '2', '3', '4', '5', '6', '7', '8', '9', 'a', 'b', 'c', 'd', 'e', 'f']

/-- The two hex digits of one byte, high nibble first (`hex.Encode`). -/
def encodeByte (b : Fin 256) : List Char :=
  [hextable.getD (b.val / 16) '0', hextable.getD (b.val % 16) '0']

/-- Method `ObjectID.Hex`: the 24 lowercase hex digits of the id; this is also the
    JSON form of the `id` field. -/
def ObjectID.Hex (id : ObjectID) : String :=
  String.mk (id.bytes.flatMap encodeByte)

/-- Value of one hex digit (`reverseHexTable` of `encoding/hex`): both cases of
    the letters are accepted. -/
def fromHexChar (c : Char) : Option Nat :=
  if 48 ≤ c.toNat ∧ c.toNat ≤ 57 then some (c.toNat - 48)
  else if 97 ≤ c.toNat ∧ c.toNat ≤ 102 then some (c.toNat - 87)
  else if 65 ≤ c.toNat ∧ c.toNat ≤ 70 then some (c.toNat - 55)
  else none

/-- Function `hex.Decode`, on the characters of the source: two digits make a
    byte `(a << 4) | b`; the first character that is no digit is the error. -/
def hexDecode : List Char → Except Error (List (Fin 256))
  | [] => .ok []
  | [_] => .error .hexLength
  | p :: q :: rest =>
    match fromHexChar p with
    | none => .error (.invalidByte p)
    | some a =>
      match fromHexChar q with
      | none => .error (.invalidByte q)
      | some b =>
        match hexDecode rest with
        | .error e => .error e
        | .ok bs => .ok (Fin.ofNat ((a * 16 + b) % 256) :: bs)

/-- Function `primitive.ObjectIDFromHex`: the string must be 24 bytes long and
    decode as hex to the 12 bytes of the id. -/
def ObjectIDFromHex (s : String) : Except Error ObjectID :=
  if s.utf8ByteSize ≠ 24 then .error .invalidHex
  else
    match hexDecode s.data with
    | .error e => .error e
    | .ok bs => if h : bs.length = 12 then .ok ⟨bs, h⟩ else .error .invalidHex

/-! ## The record (`model/recipe.go`) and the request body -/

/-- Struct `model.Recipe`.  `PublishedAt` is a `time.Time`, kept as the instant in
    nanoseconds since the Unix epoch. -/
structure Recipe where
  Id : ObjectID
  Name : String
  Tags : List String
  Ingredients : List String
  Instructions : List String
  PublishedAt : Int
  deriving DecidableEq, Repr

/-- Struct `recipeDTO`: the body of a create or update request.  Here and in
    `Recipe` a slice is the list of its elements (a nil slice and an empty one are
    the same list). -/
structure recipeDTO where
  Name : String
  Tags : List String
  Ingredients : List String
  Instructions : List String
  deriving DecidableEq, Repr

/-- Value `primitive.NilObjectID`: twelve zero bytes. -/
def NilObjectID : ObjectID := ⟨List.replicate 12 0, rfl⟩

/-- The zero `time.Time` (1 January of year 1, UTC) as nanoseconds since the Unix epoch. -/
def zeroTime : Int := -62135596800 * 1000000000

/-- The zero value of `model.Recipe`, what `var recipe model.Recipe` declares. -/
def zeroRecipe : Recipe :=
  ⟨NilObjectID, "", [], [], [], zeroTime⟩

/-! ## The collection: raw BSON documents -/

/-- A BSON value, as far as the fields of `model.Recipe` tell values apart. -/
inductive BsonValue
  | objectID (id : ObjectID)
  | string (s : String)
  | stringArray (xs : List String)
  /-- BSON DateTime: milliseconds since the Unix epoch. -/
  | dateTime (ms : Int)
  /-- A value of any other BSON type (a number, a boolean, an embedded document, ...). -/
  | other (tag : Nat)
  deriving DecidableEq, Repr

/-- A stored document, projected on the six keys the program reads or writes
    (`_id`, `name`, `tags`, `ingredients`, `instructions`, `publishedAt`).  Every
    document has an `_id`; any other key may be absent (`none`). -/
structure Document where
  _id : BsonValue
  name : Option BsonValue
  tags : Option BsonValue
  ingredients : Option BsonValue
  instructions : Option BsonValue
  publishedAt : Option BsonValue
  deriving DecidableEq, Repr

/-- BSON form of a `time.Time` (`primitive.NewDateTimeFromTime`): whole
    milliseconds since the epoch, the rest of the instant is dropped. -/
def NewDateTimeFromTime (t : Int) : Int := t / 1000000

/-- The `time.Time` a BSON DateTime decodes to. -/
def DateTimeToTime (ms : Int) : Int := ms * 1000000

/-- What `bson.Marshal` makes of a `model.Recipe`, by the struct's `bson` tags. -/
def encodeRecipe (r : Recipe) : Document where
  _id := .objectID r.Id
  name := some (.string r.Name)
  tags := some (.stringArray r.Tags)
  ingredients := some (.stringArray r.Ingredients)
  instructions := some (.stringArray r.Instructions)
  publishedAt := some (.dateTime (NewDateTimeFromTime r.PublishedAt))

/-- Decoding a document into a `model.Recipe` that starts as the zero value
    (`cur.Decode(&recipe)`, `res.Decode(&recipe)`).  Fields are taken in the
    struct's order; an absent key leaves the field alone; a value of another
    type than the field's stops the decoding with an error, and the fields set so
    far stay set.  The result is the target after the call, and the error if any. -/
def Decode (d : Document) : Recipe × Option Error :=
  let r := zeroRecipe
  match d._id with
  | .objectID id =>
    let r := { r with Id := id }
    match d.name with
    | some (.string s) => decodeTags { r with Name := s }
    | none => decodeTags r
    | some _ => (r, some (.decodeType "name"))
  | _ => (r, some (.decodeType "_id"))
where
  /-- Field `Tags`, and on. -/
  decodeTags (r : Recipe) : Recipe × Option Error :=
    match d.tags with
    | some (.stringArray xs) => decodeIngredients { r with Tags := xs }
    | none => decodeIngredients r
    | some _ => (r, some (.decodeType "tags"))
  /-- Field `Ingredients`, and on. -/
  decodeIngredients (r : Recipe) : Recipe × Option Error :=
    match d.ingredients with
    | some (.stringArray xs) => decodeInstructions { r with Ingredients := xs }
    | none => decodeInstructions r
    | some _ => (r, some (.decodeType "ingredients"))
  /-- Field `Instructions`, and on. -/
  decodeInstructions (r : Recipe) : Recipe × Option Error :=
    match d.instructions with
    | some (.stringArray xs) => decodePublishedAt { r with Instructions := xs }
    | none => decodePublishedAt r
    | some _ => (r, some (.decodeType "instructions"))
  /-- Field `PublishedAt`, the last one. -/
  decodePublishedAt (r : Recipe) : Recipe × Option Error :=
    match d.publishedAt with
    | some (.dateTime ms) => ({ r with PublishedAt := DateTimeToTime ms }, none)
    | none => (r, none)
    | some _ => (r, some (.decodeType "publishedAt"))

/-! ## The world, the environment of one request, and the external calls -/

/-- The Redis keyspace: the value under each key, if any. -/
abbrev Cache := String → Option String

/-- State of the two external collaborators. -/
structure World where
  /-- The documents of the `recipes` collection, in the order a scan yields them. -/
  store : List Document
  cache : Cache

/-- What one request gets from outside the program.  Each handler calls the
    collection at most once, and reads and writes Redis at most once each, so one
    field per kind of call is enough.  `none` means the call goes through. -/
structure Env where
  /-- Failure of `redisClient.Get` (connection, timeout, ...). -/
  redisGetErr : Option Error
  /-- Failure of `redisClient.Set`. -/
  redisSetErr : Option Error
  /-- Failure of `redisClient.Del`. -/
  redisDelErr : Option Error
  /-- Failure of the call to the collection. -/
  mongoErr : Option Error
  /-- Result of `primitive.NewObjectID()`. -/
  newObjectID : ObjectID
  /-- Result of `time.Now()`, nanoseconds since the epoch. -/
  now : Int

/-- An environment without failures. -/
def Env.quiet (id : ObjectID) (now : Int) : Env :=
  ⟨none, none, none, none, id, now⟩

/-- One call to an external collaborator, as the handler issued it. -/
inductive Call
  | redisGet (key : String)
  /-- Arguments of `Set(key, value, expiration)`; expiration `0` is none. -/
  | redisSet (key : String) (value : String) (expiration : Nat)
  | redisDel (key : String)
  | find
  | findOne (id : ObjectID)
  | updateOne (id : ObjectID) (set : recipeDTO)
  | insertOne (r : Recipe)
  | deleteOne (id : ObjectID)
  deriving DecidableEq, Repr

/-- Call `redisClient.Get(key).Result()`: the value, `redis.Nil` when the key is
    absent, or the failure of the call. -/
def redisGet (err : Option Error) (c : Cache) (key : String) : Except Error String :=
  match err with
  | some e => .error e
  | none =>
    match c key with
    | some v => .ok v
    | none => .error .redisNil

/-- Call `redisClient.Set(key, value, 0)`: the keyspace afterwards and the
    command's error.  A failed command changes nothing. -/
def redisSet (err : Option Error) (c : Cache) (key value : String) : Cache × Option Error :=
  match err with
  | some e => (c, some e)
  | none => (fun k => if k = key then some value else c k, none)

/-- Call `redisClient.Del(key)`: the keyspace afterwards and the command's error.
    Deleting an absent key is no error; a failed command changes nothing. -/
def redisDel (err : Option Error) (c : Cache) (key : String) : Cache × Option Error :=
  match err with
  | some e => (c, some e)
  | none => (fun k => if k = key then none else c k, none)

/-- The filter `bson.M{"_id": id}`. -/
def matchesId (id : ObjectID) (d : Document) : Bool :=
  decide (d._id = .objectID id)

/-- Call `collection.Find(ctx, bson.M{})`: a cursor over every document. -/
def mongoFind (err : Option Error) (store : List Document) : Except Error (List Document) :=
  match err with
  | some e => .error e
  | none => .ok store

/-- Call `collection.FindOne(ctx, bson.M{"_id": id})`: the first match, or
    `mongo.ErrNoDocuments`. -/
def mongoFindOne (err : Option Error) (store : List Document) (id : ObjectID) :
    Except Error Document :=
  match err with
  | some e => .error e
  | none =>
    match store.find? (matchesId id) with
    | some d => .ok d
    | none => .error .noDocuments

/-- The update `$set` of the four fields `name`, `instructions`, `ingredients`,
    `tags` on one document; the other keys are not touched. -/
def applySet (dto : recipeDTO) (d : Document) : Document :=
  { d with
    name := some (.string dto.Name)
    instructions := some (.stringArray dto.Instructions)
    ingredients := some (.stringArray dto.Ingredients)
    tags := some (.stringArray dto.Tags) }

/-- Apply `f` to the first document that satisfies `p`; the number of documents
    matched (0 or 1) comes with the new list. -/
def updateFirst (p : Document → Bool) (f : Document → Document) :
    List Document → Nat × List Document
  | [] => (0, [])
  | d :: ds =>
    if p d then (1, f d :: ds)
    else ((updateFirst p f ds).1, d :: (updateFirst p f ds).2)

/-- Remove the first document that satisfies `p`; the number of documents
    removed (0 or 1) comes with the new list. -/
def deleteFirst (p : Document → Bool) : List Document → Nat × List Document
  | [] => (0, [])
  | d :: ds =>
    if p d then (1, ds)
    else ((deleteFirst p ds).1, d :: (deleteFirst p ds).2)

/-- Call `collection.UpdateOne(ctx, bson.M{"_id": id}, $set ...)`: the matched
    count and the collection afterwards.  No match is no error. -/
def mongoUpdateOne (err : Option Error) (store : List Document) (id : ObjectID)
    (dto : recipeDTO) : Except Error (Nat × List Document) :=
  match err with
  | some e => .error e
  | none => .ok (updateFirst (matchesId id) (applySet dto) store)

/-- Call `collection.InsertOne(ctx, recipe)`: the collection afterwards.  The
    collection refuses a document whose `_id` is already there. -/
def mongoInsertOne (err : Option Error) (store : List Document) (r : Recipe) :
    Except Error (List Document) :=
  match err with
  | some e => .error e
  | none =>
    if store.any (matchesId r.Id) then .error .duplicateKey
    else .ok (store ++ [encodeRecipe r])

/-- Call `collection.DeleteOne(ctx, bson.M{"_id": id})`: the deleted count and
    the collection afterwards.  No match is no error. -/
def mongoDeleteOne (err : Option Error) (store : List Document) (id : ObjectID) :
    Except Error (Nat × List Document) :=
  match err with
  | some e => .error e
  | none => .ok (deleteFirst (matchesId id) store)

/-- The pair `encoding/json` gives the listing handler: `marshal` is the data
    `json.Marshal(recipes)` returns (its error is dropped at the call), `unmarshal`
    is `json.Unmarshal` into a `[]model.Recipe`. -/
structure JSONCodec where
  marshal : List Recipe → String
  unmarshal : String → Except Error (List Recipe)

/-! ## Responses -/

/-- The JSON object handed to `c.JSON`. -/
inductive Body
  | recipes (rs : List Recipe)
  | recipe (r : Recipe)
  /-- Object `gin.H{"error": err.Error()}`. -/
  | error (e : Error)
  /-- Object `gin.H{"error": text}` with a fixed text. -/
  | errorText (text : String)
  /-- Object `gin.H{"msg": text}`. -/
  | msg (text : String)
  deriving DecidableEq, Repr

/-- An HTTP response: status code and body. -/
structure Response where
  status : Nat
  body : Body
  deriving DecidableEq, Repr

/-- Result of running one handler. -/
structure Outcome where
  response : Response
  world : World
  calls : List Call

/-! ## The handlers (`handlers/recipeHandler.go`) -/

/-- The loop `for cur.Next(ctx)` of `ListRecipes`: each document is decoded into
    a fresh `model.Recipe`; a decode error is logged; the recipe is appended. -/
def cursorLoop : List Document → List Recipe → List Recipe
  | [], recipes => recipes
  | d :: rest, recipes =>
    let recipe := (Decode d).1
    cursorLoop rest (recipes ++ [recipe])

/-- Handler `ListRecipes`, `GET /recipes`. -/
def ListRecipes (J : JSONCodec) (env : Env) (w : World) : Outcome :=
  let recipes : List Recipe := []
  match redisGet env.redisGetErr w.cache "recipes" with
  | .error err =>
    if err = Error.redisNil then
      -- not cached: ask the collection and cache the result
      match mongoFind env.mongoErr w.store with
      | .error err => ⟨⟨500, .error err⟩, w, [.redisGet "recipes", .find]⟩
      | .ok cur =>
        let recipes := cursorLoop cur recipes
        let data := J.marshal recipes
        let cache := (redisSet env.redisSetErr w.cache "recipes" data).1
        ⟨⟨200, .recipes recipes⟩, { w with cache := cache },
          [.redisGet "recipes", .find, .redisSet "recipes" data 0]⟩
    else ⟨⟨500, .error err⟩, w, [.redisGet "recipes"]⟩
  | .ok val =>
    -- use the cached result set
    match J.unmarshal val with
    | .error err => ⟨⟨500, .error err⟩, w, [.redisGet "recipes"]⟩
    | .ok recipes => ⟨⟨200, .recipes recipes⟩, w, [.redisGet "recipes"]⟩

/-- Handler `GetRecipe`, `GET /recipes/:id`. -/
def GetRecipe (env : Env) (w : World) (idParam : String) : Outcome :=
  match ObjectIDFromHex idParam with
  | .error err => ⟨⟨500, .error err⟩, w, []⟩
  | .ok id =>
    match mongoFindOne env.mongoErr w.store id with
    | .error err =>
      if err = Error.noDocuments then
        ⟨⟨404, .msg "Recipe has not found by the given id"⟩, w, [.findOne id]⟩
      else ⟨⟨500, .error err⟩, w, [.findOne id]⟩
    | .ok res =>
      -- a decode error is logged only
      let recipe := (Decode res).1
      ⟨⟨200, .recipe recipe⟩, w, [.findOne id]⟩

/-- Handler `UpdateRecipe`, `PUT /recipes/:id`.  `body` is the result of
    `c.ShouldBindJSON(&recipeDTO)`. -/
def UpdateRecipe (env : Env) (w : World) (idParam : String)
    (body : Except Error recipeDTO) : Outcome :=
  match body with
  | .error err => ⟨⟨400, .error err⟩, w, []⟩
  | .ok dto =>
    match ObjectIDFromHex idParam with
    | .error err => ⟨⟨500, .error err⟩, w, []⟩
    | .ok id =>
      match mongoUpdateOne env.mongoErr w.store id dto with
      | .error err => ⟨⟨500, .error err⟩, w, [.updateOne id dto]⟩
      | .ok res =>
        -- the result of `Del` is not looked at
        let cache := (redisDel env.redisDelErr w.cache "recipes").1
        ⟨⟨204, .msg "Recipe has been updated"⟩, ⟨res.2, cache⟩,
          [.updateOne id dto, .redisDel "recipes"]⟩

/-- Handler `NewRecipe`, `POST /recipes`.  `body` is the result of
    `c.ShouldBindJSON(&recipeDTO)`. -/
def NewRecipe (env : Env) (w : World) (body : Except Error recipeDTO) : Outcome :=
  match body with
  | .error err => ⟨⟨400, .error err⟩, w, []⟩
  | .ok dto =>
    let recipe : Recipe :=
      { Id := env.newObjectID
        Name := dto.Name
        Tags := dto.Tags
        Ingredients := dto.Ingredients
        Instructions := dto.Instructions
        PublishedAt := env.now }
    match mongoInsertOne env.mongoErr w.store recipe with
    | .error _ =>
      ⟨⟨500, .errorText "Error while inserting a new recipe"⟩, w, [.insertOne recipe]⟩
    | .ok store =>
      -- the result of `Del` is not looked at
      let cache := (redisDel env.redisDelErr w.cache "recipes").1
      ⟨⟨201, .recipe recipe⟩, ⟨store, cache⟩, [.insertOne recipe, .redisDel "recipes"]⟩

/-- Handler `DeleteRecipe`, `DELETE /recipes/:id`. -/
def DeleteRecipe (env : Env) (w : World) (idParam : String) : Outcome :=
  match ObjectIDFromHex idParam with
  | .error err => ⟨⟨500, .error err⟩, w, []⟩
  | .ok id =>
    match mongoDeleteOne env.mongoErr w.store id with
    | .error err => ⟨⟨500, .error err⟩, w, [.deleteOne id]⟩
    | .ok res =>
      -- the result of `Del` is not looked at
      let cache := (redisDel env.redisDelErr w.cache "recipes").1
      ⟨⟨204, .msg "Recipe has been removed"⟩, ⟨res.2, cache⟩,
        [.deleteOne id, .redisDel "recipes"]⟩

/-! ## Sequences of write requests -/

/-- A request that writes: create, update or delete. -/
inductive WriteRequest
  | newRecipe (body : Except Error recipeDTO)
  | updateRecipe (idParam : String) (body : Except Error recipeDTO)
  | deleteRecipe (idParam : String)

/-- Run one write request through its handler. -/
def runWrite (env : Env) (w : World) : WriteRequest → Outcome
  | .newRecipe body => NewRecipe env w body
  | .updateRecipe idParam body => UpdateRecipe env w idParam body
  | .deleteRecipe idParam => DeleteRecipe env w idParam

/-- Run write requests one after the other, each in its own environment; the
    world after the last one. -/
def runWrites : List (Env × WriteRequest) → World → World
  | [], w => w
  | (env, req) :: rest, w => runWrites rest (runWrite env w req).world

/-! ## Notions the statements below use -/

/-- The characters that are hex digits. -/
def hexDigits : List Char := "0123456789abcdefABCDEF".data

/-- A well-formed reference to a record: 24 characters, each a hex digit. -/
def WellFormedID (s : String) : Prop :=
  s.length = 24 ∧ ∀ c ∈ s.data, c ∈ hexDigits

instance (s : String) : Decidable (WellFormedID s) := by
  unfold WellFormedID; infer_instance

/-- The records of the collection as a full scan decodes them, in store order. -/
def storeRecords (store : List Document) : List Recipe :=
  store.map (fun d => (Decode d).1)

/-- The cached listing, if there is one, is the serialization of the store contents. -/
def CacheConsistent (J : JSONCodec) (w : World) : Prop :=
  ∀ blob, w.cache "recipes" = some blob → blob = J.marshal (storeRecords w.store)

/-- A client-error status. -/
def isClientError (status : Nat) : Bool :=
  decide (400 ≤ status ∧ status < 500)

/-- A record as the collection gives it back: `PublishedAt` cut to whole milliseconds. -/
def stored (r : Recipe) : Recipe :=
  { r with PublishedAt := DateTimeToTime (NewDateTimeFromTime r.PublishedAt) }

/-! ### A codec that round-trips

Some statements assume of the JSON codec that `unmarshal` undoes `marshal`.
The codec below meets that law: it writes the code number of the listing in
unary.  It stands in for `encoding/json` where a concrete codec is needed. -/

/-- Characters are coded by their code point. -/
def encodableChar : Encodable Char :=
  Encodable.ofLeftInverse Char.toNat Char.ofNat Char.ofNat_toNat

/-- Strings are coded as their list of characters. -/
def encodableString : Encodable String :=
  letI := encodableChar
  Encodable.ofLeftInverse String.data String.mk (fun _ => rfl)

/-- The fields of a recipe as a tuple. -/
def Recipe.toTuple (r : Recipe) :
    List (Fin 256) × String × List String × List String × List String × Int :=
  (r.Id.bytes, r.Name, r.Tags, r.Ingredients, r.Instructions, r.PublishedAt)

/-- The recipe of a tuple of fields. -/
def Recipe.ofTuple
    (t : List (Fin 256) × String × List String × List String × List String × Int) : Recipe :=
  ⟨if h : t.1.length = 12 then ⟨t.1, h⟩ else NilObjectID, t.2.1, t.2.2.1, t.2.2.2.1,
    t.2.2.2.2.1, t.2.2.2.2.2⟩

/-- Recipes are coded through their tuple of fields. -/
def encodableRecipe : Encodable Recipe :=
  letI := encodableString
  Encodable.ofLeftInverse Recipe.toTuple Recipe.ofTuple (fun r => by
    cases r with
    | mk id n t i s p =>
      cases id with
      | mk bs h => simp [Recipe.toTuple, Recipe.ofTuple, h])

/-- The code number of a listing. -/
def encodeListing (rs : List Recipe) : Nat :=
  letI := encodableRecipe
  Encodable.encode rs

/-- The listing of a code number. -/
def decodeListing (n : Nat) : Option (List Recipe) :=
  letI := encodableRecipe
  Encodable.decode n

/-- A codec whose `unmarshal` undoes its `marshal`. -/
def unaryCodec : JSONCodec where
  marshal rs := String.mk (List.replicate (encodeListing rs) 'a')
  unmarshal s :=
    match decodeListing s.length with
    | some rs => .ok rs
    | none => .error (.other "unexpected end of JSON input")

/-! ### Concrete values for the examples -/

/-- An ObjectID. -/
def exampleId : ObjectID := ⟨[101, 79, 26, 42, 7, 0, 0, 0, 0, 0, 0, 1], rfl⟩

/-- Another ObjectID. -/
def otherId : ObjectID := ⟨[101, 79, 26, 42, 7, 0, 0, 0, 0, 0, 0, 2], rfl⟩

/-- The draft of the scenario in the specification. -/
def soup : recipeDTO := ⟨"Soup", ["veg"], ["water", "salt"], ["boil"]⟩

/-- Another draft. -/
def stew : recipeDTO := ⟨"Stew", ["meat"], ["beef", "water"], ["simmer"]⟩

/-- The record `NewRecipe` makes of `soup` at an instant that is no whole
    number of milliseconds. -/
def soupRecipe : Recipe :=
  ⟨exampleId, "Soup", ["veg"], ["water", "salt"], ["boil"], 1700000000123456789⟩

/-- The document the collection holds for `soupRecipe`. -/
def soupDoc : Document := encodeRecipe soupRecipe

/-- A document whose `name` is not a string: decoding it fails. -/
def undecodable : Document := ⟨.objectID otherId, some (.other 0), none, none, none, none⟩

/-- Nothing stored, nothing cached. -/
def emptyWorld : World := ⟨[], fun _ => none⟩

/-- A world whose cache holds the serialization of the store contents. -/
def cachedWorld (J : JSONCodec) (store : List Document) : World :=
  ⟨store, fun k => if k = "recipes" then some (J.marshal (storeRecords store)) else none⟩

/-- An environment in which only `redisClient.Del` fails. -/
def delFails : Env :=
  ⟨none, none, some (.other "connection refused"), none, exampleId, 5⟩

/-- An environment in which only `redisClient.Get` fails. -/
def getFails : Env :=
  ⟨some (.other "connection refused"), none, none, none, exampleId, 5⟩

/-- A create, an update of the created record, and a delete of another record. -/
def exampleWrites : List (Env × WriteRequest) :=
  [(Env.quiet exampleId 1700000000123456789, .newRecipe (.ok soup)),
   (Env.quiet otherId 0, .updateRecipe exampleId.Hex (.ok stew)),
   (Env.quiet otherId 0, .deleteRecipe otherId.Hex)]

/-! ## Lemmas: the hex form of an ObjectID -/

theorem fromHexChar_hextable (n : Nat) (h : n < 16) :
    fromHexChar (hextable.getD n '0') = some n := by
  interval_cases n <;> rfl

theorem utf8Size_hextable (n : Nat) (h : n < 16) :
    (hextable.getD n '0').utf8Size = 1 := by
  interval_cases n <;> rfl

theorem hexDecode_encodeByte (b : Fin 256) (rest : List Char) :
    hexDecode (encodeByte b ++ rest) =
      match hexDecode rest with
      | .error e => .error e
      | .ok bs => .ok (b :: bs) := by
  have h1 : b.val / 16 < 16 := by omega
  have h2 : b.val % 16 < 16 := by omega
  have hb : Fin.ofNat ((b.val / 16 * 16 + b.val % 16) % 256) = b := by
    apply Fin.ext
    simp [Fin.ofNat]
    omega
  simp only [encodeByte, List.cons_append, List.nil_append, hexDecode,
    fromHexChar_hextable _ h1, fromHexChar_hextable _ h2, hb, List.append_eq]

theorem hexDecode_flatMap (bs : List (Fin 256)) :
    hexDecode (bs.flatMap encodeByte) = .ok bs := by
  induction bs with
  | nil => rfl
  | cons b bs ih => simp [List.flatMap_cons, hexDecode_encodeByte, ih]

theorem utf8Len_flatMap (bs : List (Fin 256)) :
    String.utf8Len (bs.flatMap encodeByte) = 2 * bs.length := by
  induction bs with
  | nil => rfl
  | cons b bs ih =>
    have h1 : b.val / 16 < 16 := by omega
    have h2 : b.val % 16 < 16 := by omega
    have key : String.utf8Len (encodeByte b) = 2 := by
      simp only [encodeByte, String.utf8Len_cons, String.utf8Len_nil,
        utf8Size_hextable _ h1, utf8Size_hextable _ h2]
    simp only [List.flatMap_cons, String.utf8Len_append, key, ih, List.length_cons]
    omega

theorem ObjectIDFromHex_Hex (id : ObjectID) : ObjectIDFromHex id.Hex = .ok id := by
  have hlen : id.Hex.utf8ByteSize = 24 := by
    simp [ObjectID.Hex, utf8Len_flatMap, id.size]
  unfold ObjectIDFromHex
  rw [if_neg (by simp [hlen])]
  simp [ObjectID.Hex, hexDecode_flatMap, id.size]

theorem fromHexChar_of_mem (c : Char) (h : c ∈ hexDigits) : (fromHexChar c).isSome := by
  simp [hexDigits] at h
  rcases h with h | h | h | h | h | h | h | h | h | h | h | h | h | h | h | h | h | h | h | h | h | h <;>
    subst h <;> rfl

theorem utf8Size_of_mem (c : Char) (h : c ∈ hexDigits) : c.utf8Size = 1 := by
  simp [hexDigits] at h
  rcases h with h | h | h | h | h | h | h | h | h | h | h | h | h | h | h | h | h | h | h | h | h | h <;>
    subst h <;> rfl

theorem mem_of_fromHexChar (c : Char) (h : (fromHexChar c).isSome) : c ∈ hexDigits := by
  have hc : c = Char.ofNat c.toNat := (Char.ofNat_toNat c).symm
  unfold fromHexChar at h
  generalize hn : c.toNat = n at h hc
  split_ifs at h with h1 h2 h3
  · obtain ⟨ha, hb⟩ := h1
    interval_cases n <;> subst hc <;> decide
  · obtain ⟨ha, hb⟩ := h2
    interval_cases n <;> subst hc <;> decide
  · obtain ⟨ha, hb⟩ := h3
    interval_cases n <;> subst hc <;> decide
  · simp at h

theorem hexDecode_ok_mem : ∀ (cs : List Char) (bs : List (Fin 256)),
    hexDecode cs = .ok bs → (∀ c ∈ cs, c ∈ hexDigits) ∧ cs.length = 2 * bs.length
  | [], bs, h => by
    simp [hexDecode] at h; subst h; simp
  | [_], bs, h => by simp [hexDecode] at h
  | p :: q :: rest, bs, h => by
    simp only [hexDecode] at h
    cases hp : fromHexChar p with
    | none => simp [hp] at h
    | some a =>
      cases hq : fromHexChar q with
      | none => simp [hp, hq] at h
      | some b =>
        cases hr : hexDecode rest with
        | error e => simp [hp, hq, hr] at h
        | ok bs1 =>
          simp [hp, hq, hr] at h
          obtain ⟨h1, h2⟩ := hexDecode_ok_mem rest bs1 hr
          subst h
          refine ⟨?_, by simp [h2]; omega⟩
          intro c hc
          simp at hc
          rcases hc with rfl | rfl | hc
          · exact mem_of_fromHexChar _ (by simp [hp])
          · exact mem_of_fromHexChar _ (by simp [hq])
          · exact h1 c hc

theorem utf8Len_of_mem : ∀ (cs : List Char), (∀ c ∈ cs, c ∈ hexDigits) →
    String.utf8Len cs = cs.length
  | [], _ => rfl
  | c :: cs, h => by
    simp only [String.utf8Len_cons, List.length_cons,
      utf8Size_of_mem c (h c (by simp)),
      utf8Len_of_mem cs (fun x hx => h x (by simp [hx]))]

theorem ObjectIDFromHex_error (s : String) (h : ¬ WellFormedID s) :
    ∃ e, ObjectIDFromHex s = .error e := by
  unfold ObjectIDFromHex
  split_ifs with hlen
  · exact ⟨_, rfl⟩
  · cases hd : hexDecode s.data with
    | error e => exact ⟨e, rfl⟩
    | ok bs =>
      exfalso
      apply h
      obtain ⟨h1, _⟩ := hexDecode_ok_mem _ _ hd
      refine ⟨?_, h1⟩
      have := utf8Len_of_mem s.data h1
      simp only [ne_eq, Decidable.not_not] at hlen
      rw [String.length, ← this]
      cases s
      simpa using hlen

theorem hexDecode_of_mem : ∀ (n : Nat) (cs : List Char), (∀ c ∈ cs, c ∈ hexDigits) →
    cs.length = 2 * n → ∃ bs, hexDecode cs = .ok bs ∧ bs.length = n
  | 0, cs, _, hl => by
    have : cs = [] := List.length_eq_zero.mp (by omega)
    subst this
    exact ⟨[], rfl, rfl⟩
  | n + 1, [], _, hl => by simp at hl
  | n + 1, [_], _, hl => by simp at hl; omega
  | n + 1, p :: q :: rest, h, hl => by
    obtain ⟨bs, hb, hbl⟩ := hexDecode_of_mem n rest (fun c hc => h c (by simp [hc]))
      (by simp at hl; omega)
    have hp := fromHexChar_of_mem p (h p (by simp))
    have hq := fromHexChar_of_mem q (h q (by simp))
    obtain ⟨a, ha⟩ := Option.isSome_iff_exists.mp hp
    obtain ⟨b, hb2⟩ := Option.isSome_iff_exists.mp hq
    refine ⟨Fin.ofNat ((a * 16 + b) % 256) :: bs, ?_, by simp [hbl]⟩
    simp only [hexDecode, ha, hb2, hb]

theorem ObjectIDFromHex_ok (s : String) (h : WellFormedID s) :
    ∃ id, ObjectIDFromHex s = .ok id := by
  obtain ⟨hl, hm⟩ := h
  have hl2 : s.data.length = 2 * 12 := hl
  obtain ⟨bs, hb, hbl⟩ := hexDecode_of_mem 12 s.data hm hl2
  have hlen : s.utf8ByteSize = 24 := by
    have := utf8Len_of_mem s.data hm
    cases s
    simp only [String.utf8ByteSize_mk, this]
    exact hl
  refine ⟨⟨bs, hbl⟩, ?_⟩
  unfold ObjectIDFromHex
  rw [if_neg (by simp [hlen])]
  simp [hb, hbl]


/-! ## Lemmas: the collection -/

theorem updateFirst_no_match (p : Document → Bool) (f : Document → Document)
    (store : List Document) (h : ∀ d ∈ store, p d = false) :
    updateFirst p f store = (0, store) := by
  induction store with
  | nil => rfl
  | cons d ds ih =>
    have hd : p d = false := h d (by simp)
    have := ih (fun x hx => h x (by simp [hx]))
    simp [updateFirst, hd, this]

theorem updateFirst_eq_map (id : ObjectID) (f : Document → Document) (store : List Document)
    (huniq : (store.map Document._id).Nodup) :
    (updateFirst (matchesId id) f store).2 =
      store.map (fun d => if matchesId id d then f d else d) := by
  induction store with
  | nil => rfl
  | cons d ds ih =>
    rw [List.map_cons, List.nodup_cons] at huniq
    obtain ⟨hd, hds⟩ := huniq
    by_cases hm : matchesId id d = true
    · have hrest : ds.map (fun x => if matchesId id x then f x else x) = ds := by
        conv_rhs => rw [← List.map_id ds]
        apply List.map_congr_left
        intro x hx
        have hne : matchesId id x = false := by
          by_contra hcon
          simp only [matchesId, Bool.not_eq_false, decide_eq_true_eq] at hcon hm
          exact hd (List.mem_map.mpr ⟨x, hx, by rw [hcon, hm]⟩)
        simp [hne]
      simp [updateFirst, hm, hrest]
    · simp [updateFirst, hm, ih hds]

theorem find_appended (store : List Document) (r : Recipe)
    (hfresh : store.any (matchesId r.Id) = false) :
    (store ++ [encodeRecipe r]).find? (matchesId r.Id) = some (encodeRecipe r) := by
  have hnone : store.find? (matchesId r.Id) = none := by
    rw [List.find?_eq_none]
    intro x hx
    rw [List.any_eq_false] at hfresh
    exact hfresh x hx
  have hm : matchesId r.Id (encodeRecipe r) = true := by simp [matchesId, encodeRecipe]
  simp [List.find?_append, hnone, hm]

/-! ## Lemmas: decoding -/

theorem Decode_encodeRecipe (r : Recipe) : Decode (encodeRecipe r) = (stored r, none) := by
  cases r
  rfl

theorem Decode_applySet (dto : recipeDTO) (d : Document) (id : ObjectID)
    (hid : d._id = .objectID id) :
    (Decode (applySet dto d)).1 =
      ⟨id, dto.Name, dto.Tags, dto.Ingredients, dto.Instructions,
        match d.publishedAt with
        | some (.dateTime ms) => DateTimeToTime ms
        | _ => zeroTime⟩ := by
  simp only [Decode, applySet, hid, Decode.decodeTags, Decode.decodeIngredients,
    Decode.decodeInstructions, Decode.decodePublishedAt]
  split <;> simp_all [zeroRecipe]

theorem Decode_publishedAt (d : Document) (h : (Decode d).2 = none) :
    (Decode d).1.PublishedAt =
      match d.publishedAt with
      | some (.dateTime ms) => DateTimeToTime ms
      | _ => zeroTime := by
  have h5 : ∀ r : Recipe, (Decode.decodePublishedAt d r).2 = none →
      (Decode.decodePublishedAt d r).1.PublishedAt =
        match d.publishedAt with
        | some (.dateTime ms) => DateTimeToTime ms
        | _ => r.PublishedAt := by
    intro r hr
    simp only [Decode.decodePublishedAt] at hr ⊢
    split <;> simp_all
  have h4 : ∀ r : Recipe, (Decode.decodeInstructions d r).2 = none →
      (Decode.decodeInstructions d r).1.PublishedAt =
        match d.publishedAt with
        | some (.dateTime ms) => DateTimeToTime ms
        | _ => r.PublishedAt := by
    intro r hr
    simp only [Decode.decodeInstructions] at hr ⊢
    split at hr
    · simp_all
    · simp_all
    · simp at hr
  have h3 : ∀ r : Recipe, (Decode.decodeIngredients d r).2 = none →
      (Decode.decodeIngredients d r).1.PublishedAt =
        match d.publishedAt with
        | some (.dateTime ms) => DateTimeToTime ms
        | _ => r.PublishedAt := by
    intro r hr
    simp only [Decode.decodeIngredients] at hr ⊢
    split at hr
    · simp_all
    · simp_all
    · simp at hr
  have h2 : ∀ r : Recipe, (Decode.decodeTags d r).2 = none →
      (Decode.decodeTags d r).1.PublishedAt =
        match d.publishedAt with
        | some (.dateTime ms) => DateTimeToTime ms
        | _ => r.PublishedAt := by
    intro r hr
    simp only [Decode.decodeTags] at hr ⊢
    split at hr
    · simp_all
    · simp_all
    · simp at hr
  simp only [Decode] at h ⊢
  split at h
  · split at h
    · simp_all [zeroRecipe]
    · simp_all [zeroRecipe]
    · simp at h
  · simp at h

theorem Decode_Id (d : Document) (id : ObjectID) (h : d._id = .objectID id) :
    (Decode d).1.Id = id := by
  have h5 : ∀ r : Recipe, (Decode.decodePublishedAt d r).1.Id = r.Id := by
    intro r
    simp only [Decode.decodePublishedAt]
    split <;> rfl
  have h4 : ∀ r : Recipe, (Decode.decodeInstructions d r).1.Id = r.Id := by
    intro r
    simp only [Decode.decodeInstructions]
    split <;> simp [h5]
  have h3 : ∀ r : Recipe, (Decode.decodeIngredients d r).1.Id = r.Id := by
    intro r
    simp only [Decode.decodeIngredients]
    split <;> simp [h4]
  have h2 : ∀ r : Recipe, (Decode.decodeTags d r).1.Id = r.Id := by
    intro r
    simp only [Decode.decodeTags]
    split <;> simp [h3]
  simp only [Decode, h]
  split <;> simp [h2]

theorem cursorLoop_eq (docs : List Document) (acc : List Recipe) :
    cursorLoop docs acc = acc ++ storeRecords docs := by
  induction docs generalizing acc with
  | nil => simp [cursorLoop, storeRecords]
  | cons d ds ih => simp [cursorLoop, storeRecords, ih]

theorem cursorLoop_nil (docs : List Document) : cursorLoop docs [] = storeRecords docs := by
  simp [cursorLoop_eq]

theorem unaryCodec_roundtrip (rs : List Recipe) :
    unaryCodec.unmarshal (unaryCodec.marshal rs) = .ok rs := by
  have h : decodeListing (encodeListing rs) = some rs := by
    letI := encodableRecipe
    exact Encodable.encodek rs
  have hl : ∀ n : Nat, (String.mk (List.replicate n 'a')).length = n := by
    intro n
    simp only [String.length, List.length_replicate]
  show (match decodeListing (String.mk (List.replicate (encodeListing rs) 'a')).length with
    | some rs => Except.ok rs
    | none => Except.error (Error.other "unexpected end of JSON input")) = Except.ok rs
  rw [hl, h]

/-! ## Lemmas: the handlers -/

/-- The whole outcome of `ListRecipes` on the cache-miss path. -/
theorem ListRecipes_of_miss (J : JSONCodec) (env : Env) (w : World)
    (hget : env.redisGetErr = none) (habsent : w.cache "recipes" = none)
    (hfind : env.mongoErr = none) :
    ListRecipes J env w =
      ⟨⟨200, .recipes (storeRecords w.store)⟩,
        { w with cache := (redisSet env.redisSetErr w.cache "recipes"
            (J.marshal (storeRecords w.store))).1 },
        [.redisGet "recipes", .find,
          .redisSet "recipes" (J.marshal (storeRecords w.store)) 0]⟩ := by
  simp [ListRecipes, redisGet, hget, habsent, mongoFind, hfind, cursorLoop_nil]

/-- The response of `ListRecipes` on a cache hit whose blob deserializes. -/
theorem ListRecipes_of_hit (J : JSONCodec) (env : Env) (w : World) (blob : String)
    (rs : List Recipe) (hget : env.redisGetErr = none)
    (hblob : w.cache "recipes" = some blob) (hrs : J.unmarshal blob = .ok rs) :
    (ListRecipes J env w).response = ⟨200, .recipes rs⟩ := by
  simp [ListRecipes, redisGet, hget, hblob, hrs]

/-- A write either leaves the world alone or, when its `Del` goes through,
    ends with the listing key absent. -/
theorem runWrite_cache (env : Env) (w : World) (req : WriteRequest)
    (hdel : env.redisDelErr = none) :
    (runWrite env w req).world = w ∨ (runWrite env w req).world.cache "recipes" = none := by
  cases req with
  | newRecipe body =>
    cases body with
    | error e => exact Or.inl rfl
    | ok dto =>
      simp only [runWrite, NewRecipe]
      split
      · exact Or.inl rfl
      · exact Or.inr (by simp [redisDel, hdel])
  | updateRecipe idParam body =>
    cases body with
    | error e => exact Or.inl rfl
    | ok dto =>
      simp only [runWrite, UpdateRecipe]
      split
      · exact Or.inl rfl
      · split
        · exact Or.inl rfl
        · exact Or.inr (by simp [redisDel, hdel])
  | deleteRecipe idParam =>
    simp only [runWrite, DeleteRecipe]
    split
    · exact Or.inl rfl
    · split
      · exact Or.inl rfl
      · exact Or.inr (by simp [redisDel, hdel])

/-- Consistency of the cache with the store is an invariant of sequences of
    writes whose invalidations go through. -/
theorem runWrites_consistent (J : JSONCodec) (reqs : List (Env × WriteRequest)) (w : World)
    (hcons : CacheConsistent J w) (hdel : ∀ q ∈ reqs, q.1.redisDelErr = none) :
    CacheConsistent J (runWrites reqs w) := by
  induction reqs generalizing w with
  | nil => exact hcons
  | cons q rest ih =>
    obtain ⟨env, req⟩ := q
    have henv : env.redisDelErr = none := hdel (env, req) (by simp)
    apply ih
    · rcases runWrite_cache env w req henv with h | h
      · rw [h]; exact hcons
      · intro blob hb
        rw [h] at hb
        exact absurd hb (by simp)
    · intro q hq
      exact hdel q (by simp [hq])

/-- A create that answers 201 with `r` built `r` from the draft, the fresh id and
    the clock, found the id unused, and appended the document of `r`. -/
theorem NewRecipe_created (env : Env) (w : World) (dto : recipeDTO) (r : Recipe)
    (hnew : (NewRecipe env w (.ok dto)).response = ⟨201, .recipe r⟩) :
    r = ⟨env.newObjectID, dto.Name, dto.Tags, dto.Ingredients, dto.Instructions, env.now⟩ ∧
    w.store.any (matchesId r.Id) = false ∧
    (NewRecipe env w (.ok dto)).world.store = w.store ++ [encodeRecipe r] := by
  unfold NewRecipe at hnew ⊢
  simp only at hnew ⊢
  cases hins : mongoInsertOne env.mongoErr w.store
      ⟨env.newObjectID, dto.Name, dto.Tags, dto.Ingredients, dto.Instructions, env.now⟩ with
  | error e => simp [hins] at hnew
  | ok store =>
    simp only [hins, Response.mk.injEq, Body.recipe.injEq, true_and] at hnew
    subst hnew
    simp only [mongoInsertOne] at hins
    split at hins
    · simp at hins
    · split at hins
      · simp at hins
      · rename_i hany
        simp only [Except.ok.injEq] at hins
        simp only [Bool.not_eq_true] at hany
        exact ⟨rfl, hany, hins.symm⟩

theorem Hex_length (id : ObjectID) : id.Hex.length = 24 := by
  have h : ∀ bs : List (Fin 256), (bs.flatMap encodeByte).length = 2 * bs.length := by
    intro bs
    induction bs with
    | nil => rfl
    | cons b bs ih => simp only [List.flatMap_cons, List.length_append, ih, encodeByte,
        List.length_cons, List.length_nil]; omega
  simp only [ObjectID.Hex, String.length, h, id.size]

/-! ## The listing cache -/

/-- Claim C1: start from a world whose cached listing, if present, is the
    serialization of the store contents, and run any finite sequence of
    `NewRecipe` / `UpdateRecipe` / `DeleteRecipe` requests one after the other,
    each to completion (the `Del` of a write that reaches it goes through).  Then
    a following `ListRecipes`, its cache read and store query going through,
    answers 200 with exactly the records the store holds after all the writes; in
    particular never with a listing taken before one of them.  The codec is
    assumed to round-trip. -/
theorem listing_after_writes (J : JSONCodec) (w : World) (reqs : List (Env × WriteRequest))
    (env : Env)
    (hcodec : ∀ rs, J.unmarshal (J.marshal rs) = .ok rs)
    (hcons : CacheConsistent J w)
    (hdel : ∀ q ∈ reqs, q.1.redisDelErr = none)
    (hget : env.redisGetErr = none) (hfind : env.mongoErr = none) :
    (ListRecipes J env (runWrites reqs w)).response =
      ⟨200, .recipes (storeRecords (runWrites reqs w).store)⟩ := by
  have hfinal := runWrites_consistent J reqs w hcons hdel
  cases hc : (runWrites reqs w).cache "recipes" with
  | none => rw [ListRecipes_of_miss J env _ hget hc hfind]
  | some blob =>
    have hb := hfinal blob hc
    exact ListRecipes_of_hit J env _ blob _ hget hc (by rw [hb, hcodec])

/-- Claim C1 at a world with a cached listing and three writes. -/
theorem listing_after_writes_witness :
    CacheConsistent unaryCodec (cachedWorld unaryCodec [undecodable]) ∧
    (ListRecipes unaryCodec (Env.quiet otherId 0)
        (runWrites exampleWrites (cachedWorld unaryCodec [undecodable]))).response =
      ⟨200, .recipes (storeRecords
        (runWrites exampleWrites (cachedWorld unaryCodec [undecodable])).store)⟩ :=
  have hcons : CacheConsistent unaryCodec (cachedWorld unaryCodec [undecodable]) :=
    fun blob h => by
      simp only [cachedWorld, if_true] at h
      exact (Option.some.inj h).symm
  ⟨hcons, listing_after_writes unaryCodec _ exampleWrites _ unaryCodec_roundtrip hcons
    (by
      intro q hq
      simp only [exampleWrites, List.mem_cons, List.mem_singleton, List.not_mem_nil,
        or_false] at hq
      rcases hq with rfl | rfl | rfl <;> rfl)
    rfl rfl⟩

/-- Claim C2: when `ListRecipes` finds the key `"recipes"` absent and the store
    query succeeds, it issues `Set("recipes", blob, 0)` where `blob` is the
    serialization of the full sequence fetched from the store (one entry per
    stored document), and answers 200 with that sequence whether or not the cache
    write succeeds; the blob is in the cache when the write goes through, the
    cache is as before when it fails, the store is not touched.  For an empty
    store the answer is the empty sequence and the blob is that of the empty
    sequence. -/
theorem ListRecipes_cache_miss (J : JSONCodec) (env : Env) (w : World)
    (hget : env.redisGetErr = none) (habsent : w.cache "recipes" = none)
    (hfind : env.mongoErr = none) :
    (ListRecipes J env w).response = ⟨200, .recipes (storeRecords w.store)⟩ ∧
    (ListRecipes J env w).calls =
      [.redisGet "recipes", .find, .redisSet "recipes" (J.marshal (storeRecords w.store)) 0] ∧
    (ListRecipes J env w).world.store = w.store ∧
    (env.redisSetErr = none →
      (ListRecipes J env w).world.cache "recipes" = some (J.marshal (storeRecords w.store))) ∧
    (env.redisSetErr ≠ none → (ListRecipes J env w).world.cache = w.cache) ∧
    (storeRecords w.store).length = w.store.length ∧
    (w.store = [] →
      (ListRecipes J env w).response = ⟨200, .recipes []⟩ ∧
      (ListRecipes J env w).calls =
        [.redisGet "recipes", .find, .redisSet "recipes" (J.marshal []) 0]) := by
  rw [ListRecipes_of_miss J env w hget habsent hfind]
  refine ⟨rfl, rfl, rfl, ?_, ?_, by simp [storeRecords], ?_⟩
  · intro hs
    simp [redisSet, hs]
  · intro hs
    cases h : env.redisSetErr with
    | none => exact absurd h hs
    | some e => simp [redisSet]
  · intro hs
    simp [hs, storeRecords]

/-- Claim C2 at a store of one record and an empty cache. -/
theorem ListRecipes_cache_miss_witness :
    (ListRecipes unaryCodec (Env.quiet otherId 0) ⟨[soupDoc], fun _ => none⟩).response =
      ⟨200, .recipes (storeRecords [soupDoc])⟩ ∧
    (ListRecipes unaryCodec (Env.quiet otherId 0) ⟨[soupDoc], fun _ => none⟩).calls =
      [.redisGet "recipes", .find,
        .redisSet "recipes" (unaryCodec.marshal (storeRecords [soupDoc])) 0] :=
  ⟨(ListRecipes_cache_miss unaryCodec (Env.quiet otherId 0) ⟨[soupDoc], fun _ => none⟩
      rfl rfl rfl).1,
   (ListRecipes_cache_miss unaryCodec (Env.quiet otherId 0) ⟨[soupDoc], fun _ => none⟩
      rfl rfl rfl).2.1⟩

/-- Claim C3: when the cache read fails with an error other than `redis.Nil`,
    `ListRecipes` answers 500 carrying that error, and the read of the key is the
    only external call it makes: no store query, no cache write, no listing; the
    world is as before. -/
theorem ListRecipes_cache_read_error (J : JSONCodec) (env : Env) (w : World) (e : Error)
    (hget : env.redisGetErr = some e) (hne : e ≠ Error.redisNil) :
    (ListRecipes J env w).response = ⟨500, .error e⟩ ∧
    (ListRecipes J env w).calls = [.redisGet "recipes"] ∧
    (ListRecipes J env w).world = w := by
  simp [ListRecipes, redisGet, hget, hne]

/-- Claim C3 at a refused connection. -/
theorem ListRecipes_cache_read_error_witness :
    getFails.redisGetErr = some (.other "connection refused") ∧
    (ListRecipes unaryCodec getFails emptyWorld).response =
      ⟨500, .error (.other "connection refused")⟩ ∧
    (ListRecipes unaryCodec getFails emptyWorld).calls = [.redisGet "recipes"] :=
  ⟨rfl,
   (ListRecipes_cache_read_error unaryCodec getFails emptyWorld (.other "connection refused")
      rfl (by decide)).1,
   (ListRecipes_cache_read_error unaryCodec getFails emptyWorld (.other "connection refused")
      rfl (by decide)).2.1⟩

/-- Claim C10: when a blob is present under the key `"recipes"`, the read of the
    key is the only external call `ListRecipes` makes (no store query, no cache
    write) and the world is as before; if the blob deserializes to a sequence of
    records the answer is 200 with exactly that sequence, and if deserialization
    fails the answer is 500 with the error. -/
theorem ListRecipes_cache_hit (J : JSONCodec) (env : Env) (w : World) (blob : String)
    (hget : env.redisGetErr = none) (hblob : w.cache "recipes" = some blob) :
    (ListRecipes J env w).calls = [.redisGet "recipes"] ∧
    (ListRecipes J env w).world = w ∧
    (∀ rs, J.unmarshal blob = .ok rs → (ListRecipes J env w).response = ⟨200, .recipes rs⟩) ∧
    (∀ e, J.unmarshal blob = .error e → (ListRecipes J env w).response = ⟨500, .error e⟩) := by
  cases h : J.unmarshal blob <;> simp [ListRecipes, redisGet, hget, hblob, h]

/-- Claim C10 at a world whose cache holds the listing of one record. -/
theorem ListRecipes_cache_hit_witness :
    (ListRecipes unaryCodec (Env.quiet otherId 0) (cachedWorld unaryCodec [soupDoc])).calls =
      [.redisGet "recipes"] ∧
    (ListRecipes unaryCodec (Env.quiet otherId 0) (cachedWorld unaryCodec [soupDoc])).response =
      ⟨200, .recipes (storeRecords [soupDoc])⟩ :=
  ⟨(ListRecipes_cache_hit unaryCodec (Env.quiet otherId 0) (cachedWorld unaryCodec [soupDoc])
      (unaryCodec.marshal (storeRecords [soupDoc])) rfl rfl).1,
   (ListRecipes_cache_hit unaryCodec (Env.quiet otherId 0) (cachedWorld unaryCodec [soupDoc])
      (unaryCodec.marshal (storeRecords [soupDoc])) rfl rfl).2.2.1 _
      (unaryCodec_roundtrip _)⟩

/-- Claim C5, the code at a store that holds a decodable and an undecodable
    document: decoding the second fails, and still the listing on the cache-miss
    path is 200 with two entries, the second being what the failed decode left
    in the fresh record, while only one document decodes. -/
theorem ListRecipes_keeps_undecodable (J : JSONCodec) :
    (Decode undecodable).2 = some (.decodeType "name") ∧
    (ListRecipes J (Env.quiet otherId 0) ⟨[soupDoc, undecodable], fun _ => none⟩).response =
      ⟨200, .recipes [stored soupRecipe, ⟨otherId, "", [], [], [], zeroTime⟩]⟩ ∧
    ([soupDoc, undecodable].filter (fun d => decide ((Decode d).2 = none))).length = 1 := by
  refine ⟨by decide, ?_, by decide⟩
  rw [ListRecipes_of_miss J _ _ rfl rfl rfl]
  show (⟨200, .recipes (storeRecords [soupDoc, undecodable])⟩ : Response) = _
  decide

/-! ## Invalidation after a write -/

/-- Claim C4, as the code has it: when the deletion of the key `"recipes"`
    fails after a store write that succeeded, the failure is not surfaced.  The
    response is the success response (201 for a create, 204 for an update or a
    delete), the store holds the committed mutation, and the cache is as it was
    before the request. -/
theorem invalidation_failure_not_surfaced (env : Env) (w : World) (e : Error)
    (hdel : env.redisDelErr = some e) :
    (∀ dto store,
      mongoInsertOne env.mongoErr w.store
        ⟨env.newObjectID, dto.Name, dto.Tags, dto.Ingredients, dto.Instructions, env.now⟩
          = .ok store →
      (NewRecipe env w (.ok dto)).response.status = 201 ∧
      (NewRecipe env w (.ok dto)).world.store = store ∧
      (NewRecipe env w (.ok dto)).world.cache = w.cache) ∧
    (∀ idParam id dto res,
      ObjectIDFromHex idParam = .ok id →
      mongoUpdateOne env.mongoErr w.store id dto = .ok res →
      (UpdateRecipe env w idParam (.ok dto)).response.status = 204 ∧
      (UpdateRecipe env w idParam (.ok dto)).world.store = res.2 ∧
      (UpdateRecipe env w idParam (.ok dto)).world.cache = w.cache) ∧
    (∀ idParam id res,
      ObjectIDFromHex idParam = .ok id →
      mongoDeleteOne env.mongoErr w.store id = .ok res →
      (DeleteRecipe env w idParam).response.status = 204 ∧
      (DeleteRecipe env w idParam).world.store = res.2 ∧
      (DeleteRecipe env w idParam).world.cache = w.cache) := by
  refine ⟨?_, ?_, ?_⟩
  · intro dto store h
    simp [NewRecipe, h, redisDel, hdel]
  · intro idParam id dto res hid h
    simp [UpdateRecipe, hid, h, redisDel, hdel]
  · intro idParam id res hid h
    simp [DeleteRecipe, hid, h, redisDel, hdel]

/-- Claim C4 as amended, at a create, an update and a delete whose `Del` fails. -/
theorem invalidation_failure_not_surfaced_witness :
    delFails.redisDelErr = some (.other "connection refused") ∧
    (NewRecipe delFails emptyWorld (.ok soup)).response.status = 201 ∧
    (UpdateRecipe delFails (cachedWorld unaryCodec [soupDoc]) exampleId.Hex
      (.ok stew)).response.status = 204 ∧
    (DeleteRecipe delFails (cachedWorld unaryCodec [soupDoc]) exampleId.Hex).response.status
      = 204 ∧
    (DeleteRecipe delFails (cachedWorld unaryCodec [soupDoc]) exampleId.Hex).world.store
      = [] ∧
    (DeleteRecipe delFails (cachedWorld unaryCodec [soupDoc]) exampleId.Hex).world.cache
      = (cachedWorld unaryCodec [soupDoc]).cache :=
  ⟨rfl,
   ((invalidation_failure_not_surfaced delFails emptyWorld _ rfl).1 soup
      [encodeRecipe ⟨exampleId, "Soup", ["veg"], ["water", "salt"], ["boil"], 5⟩] rfl).1,
   ((invalidation_failure_not_surfaced delFails (cachedWorld unaryCodec [soupDoc]) _ rfl).2.1
      exampleId.Hex exampleId stew (1, [applySet stew soupDoc])
      (ObjectIDFromHex_Hex _) rfl).1,
   ((invalidation_failure_not_surfaced delFails (cachedWorld unaryCodec [soupDoc]) _ rfl).2.2
      exampleId.Hex exampleId (1, []) (ObjectIDFromHex_Hex _) rfl).1,
   ((invalidation_failure_not_surfaced delFails (cachedWorld unaryCodec [soupDoc]) _ rfl).2.2
      exampleId.Hex exampleId (1, []) (ObjectIDFromHex_Hex _) rfl).2.1,
   ((invalidation_failure_not_surfaced delFails (cachedWorld unaryCodec [soupDoc]) _ rfl).2.2
      exampleId.Hex exampleId (1, []) (ObjectIDFromHex_Hex _) rfl).2.2⟩

/-- Claim C4 as stated fails: a create whose store write succeeds and whose
    `Del` fails answers 201, the success response. -/
theorem invalidation_failure_surfaced_counterexample :
    delFails.redisDelErr = some (.other "connection refused") ∧
    (NewRecipe delFails emptyWorld (.ok soup)).world.store
      = [encodeRecipe ⟨exampleId, "Soup", ["veg"], ["water", "salt"], ["boil"], 5⟩] ∧
    (NewRecipe delFails emptyWorld (.ok soup)).response.status = 201 := by
  decide

/-! ## Update -/

/-- Claim C6: let the ids of the stored documents be pairwise distinct, `id` a
    well-formed reference and `dto` a draft that bound.  Then `UpdateRecipe`
    answers 204, the store keeps its length, and position by position: a record
    `R` whose id is `id` now has name, tags, ingredients and instructions equal to
    the draft's (in the stored document and in the record read back), its `_id`
    and `publishedAt` are those of `R` (and read back as before, when `R` decoded),
    and every record with another id is unchanged. -/
theorem UpdateRecipe_replaces_fields (env : Env) (w : World) (idParam : String)
    (id : ObjectID) (dto : recipeDTO) (hid : ObjectIDFromHex idParam = .ok id)
    (hmongo : env.mongoErr = none) (huniq : (w.store.map Document._id).Nodup) :
    (UpdateRecipe env w idParam (.ok dto)).response.status = 204 ∧
    (UpdateRecipe env w idParam (.ok dto)).world.store.length = w.store.length ∧
    ∀ (i : Nat) (R : Document), w.store[i]? = some R →
      ∃ R', (UpdateRecipe env w idParam (.ok dto)).world.store[i]? = some R' ∧
        (R._id = .objectID id →
          R'.name = some (.string dto.Name) ∧
          R'.tags = some (.stringArray dto.Tags) ∧
          R'.ingredients = some (.stringArray dto.Ingredients) ∧
          R'.instructions = some (.stringArray dto.Instructions) ∧
          R'._id = R._id ∧
          R'.publishedAt = R.publishedAt ∧
          (Decode R').1.Name = dto.Name ∧
          (Decode R').1.Tags = dto.Tags ∧
          (Decode R').1.Ingredients = dto.Ingredients ∧
          (Decode R').1.Instructions = dto.Instructions ∧
          (Decode R').1.Id = (Decode R).1.Id ∧
          ((Decode R).2 = none →
            (Decode R').1.PublishedAt = (Decode R).1.PublishedAt)) ∧
        (R._id ≠ .objectID id → R' = R) := by
  have hstore : (UpdateRecipe env w idParam (.ok dto)).world.store =
      w.store.map (fun d => if matchesId id d then applySet dto d else d) := by
    simp [UpdateRecipe, hid, mongoUpdateOne, hmongo, updateFirst_eq_map id _ _ huniq]
  refine ⟨by simp [UpdateRecipe, hid, mongoUpdateOne, hmongo], by simp [hstore], ?_⟩
  intro i R hR
  refine ⟨if matchesId id R then applySet dto R else R, by simp [hstore, hR], ?_, ?_⟩
  · intro hRid
    have hm : matchesId id R = true := by simp [matchesId, hRid]
    have hdec := Decode_applySet dto R id hRid
    simp only [hm, if_true]
    refine ⟨rfl, rfl, rfl, rfl, rfl, rfl, by rw [hdec], by rw [hdec], by rw [hdec],
      by rw [hdec], by rw [hdec, Decode_Id R id hRid], ?_⟩
    intro hok
    rw [hdec, Decode_publishedAt R hok]
  · intro hRid
    have hm : matchesId id R = false := by simp [matchesId, hRid]
    simp [hm]

/-- Claim C6 at a store of two documents, the first of which is updated. -/
theorem UpdateRecipe_replaces_fields_witness :
    ([soupDoc, undecodable].map Document._id).Nodup ∧
    (UpdateRecipe (Env.quiet otherId 0) ⟨[soupDoc, undecodable], fun _ => none⟩
      exampleId.Hex (.ok stew)).response.status = 204 ∧
    (UpdateRecipe (Env.quiet otherId 0) ⟨[soupDoc, undecodable], fun _ => none⟩
      exampleId.Hex (.ok stew)).world.store.length = 2 :=
  ⟨by decide,
   (UpdateRecipe_replaces_fields (Env.quiet otherId 0)
      ⟨[soupDoc, undecodable], fun _ => none⟩ exampleId.Hex exampleId stew
      (ObjectIDFromHex_Hex _) rfl (by decide)).1,
   (UpdateRecipe_replaces_fields (Env.quiet otherId 0)
      ⟨[soupDoc, undecodable], fun _ => none⟩ exampleId.Hex exampleId stew
      (ObjectIDFromHex_Hex _) rfl (by decide)).2.1⟩

/-- Claim C7: for a well-formed id that matches no stored record and a draft
    that bound, `UpdateRecipe` does not error: it answers 204 with the same
    response as in any other world (one with a match included), leaves the store
    contents as they were, and still issues `Del("recipes")`, after which the key
    is absent when the command goes through. -/
theorem UpdateRecipe_no_match (env : Env) (w : World) (idParam : String) (id : ObjectID)
    (dto : recipeDTO) (hid : ObjectIDFromHex idParam = .ok id)
    (hno : ∀ d ∈ w.store, d._id ≠ .objectID id) (hmongo : env.mongoErr = none) :
    (UpdateRecipe env w idParam (.ok dto)).response = ⟨204, .msg "Recipe has been updated"⟩ ∧
    (UpdateRecipe env w idParam (.ok dto)).world.store = w.store ∧
    (UpdateRecipe env w idParam (.ok dto)).calls = [.updateOne id dto, .redisDel "recipes"] ∧
    (env.redisDelErr = none →
      (UpdateRecipe env w idParam (.ok dto)).world.cache "recipes" = none) ∧
    (∀ w2 : World, (UpdateRecipe env w2 idParam (.ok dto)).response =
      (UpdateRecipe env w idParam (.ok dto)).response) := by
  have hup : updateFirst (matchesId id) (applySet dto) w.store = (0, w.store) :=
    updateFirst_no_match _ _ _ (fun d hd => by simpa [matchesId] using hno d hd)
  refine ⟨?_, ?_, ?_, ?_, ?_⟩
  · simp [UpdateRecipe, hid, mongoUpdateOne, hmongo]
  · simp [UpdateRecipe, hid, mongoUpdateOne, hmongo, hup]
  · simp [UpdateRecipe, hid, mongoUpdateOne, hmongo]
  · intro hdel
    simp [UpdateRecipe, hid, mongoUpdateOne, hmongo, redisDel, hdel]
  · intro w2
    simp [UpdateRecipe, hid, mongoUpdateOne, hmongo]

/-- Claim C7 at a store of one record and the id of no record. -/
theorem UpdateRecipe_no_match_witness :
    (UpdateRecipe (Env.quiet exampleId 0) (cachedWorld unaryCodec [soupDoc]) otherId.Hex
      (.ok stew)).response = ⟨204, .msg "Recipe has been updated"⟩ ∧
    (UpdateRecipe (Env.quiet exampleId 0) (cachedWorld unaryCodec [soupDoc]) otherId.Hex
      (.ok stew)).world.store = [soupDoc] ∧
    (UpdateRecipe (Env.quiet exampleId 0) (cachedWorld unaryCodec [soupDoc]) otherId.Hex
      (.ok stew)).world.cache "recipes" = none :=
  ⟨(UpdateRecipe_no_match (Env.quiet exampleId 0) (cachedWorld unaryCodec [soupDoc])
      otherId.Hex otherId stew (ObjectIDFromHex_Hex _) (by decide) rfl).1,
   (UpdateRecipe_no_match (Env.quiet exampleId 0) (cachedWorld unaryCodec [soupDoc])
      otherId.Hex otherId stew (ObjectIDFromHex_Hex _) (by decide) rfl).2.1,
   (UpdateRecipe_no_match (Env.quiet exampleId 0) (cachedWorld unaryCodec [soupDoc])
      otherId.Hex otherId stew (ObjectIDFromHex_Hex _) (by decide) rfl).2.2.2.1 rfl⟩

/-! ## Fetch by id -/

/-- Claim C8, as the code has it: for an identifier that is not a well-formed
    reference, `GetRecipe` answers with status 500 carrying the parse error, so
    not with 404, and it makes no call to the store; the world is as before. -/
theorem GetRecipe_malformed_id (env : Env) (w : World) (idParam : String)
    (hbad : ¬ WellFormedID idParam) :
    (GetRecipe env w idParam).response.status = 500 ∧
    (∃ e, (GetRecipe env w idParam).response.body = .error e) ∧
    (GetRecipe env w idParam).response.status ≠ 404 ∧
    (GetRecipe env w idParam).calls = [] ∧
    (GetRecipe env w idParam).world = w := by
  obtain ⟨e, he⟩ := ObjectIDFromHex_error idParam hbad
  simp [GetRecipe, he]

/-- Claim C8 as amended, at the identifier of the scenario. -/
theorem GetRecipe_malformed_id_witness :
    ¬ WellFormedID "not-a-valid-id-format" ∧
    (GetRecipe (Env.quiet exampleId 0) (cachedWorld unaryCodec [soupDoc])
      "not-a-valid-id-format").response.status = 500 ∧
    (GetRecipe (Env.quiet exampleId 0) (cachedWorld unaryCodec [soupDoc])
      "not-a-valid-id-format").calls = [] :=
  ⟨by decide,
   (GetRecipe_malformed_id (Env.quiet exampleId 0) (cachedWorld unaryCodec [soupDoc])
      "not-a-valid-id-format" (by decide)).1,
   (GetRecipe_malformed_id (Env.quiet exampleId 0) (cachedWorld unaryCodec [soupDoc])
      "not-a-valid-id-format" (by decide)).2.2.2.1⟩

/-- Claim C8 as stated fails: for the malformed identifier of the scenario the
    status of the response is not a client error. -/
theorem GetRecipe_malformed_id_counterexample :
    ¬ WellFormedID "not-a-valid-id-format" ∧
    isClientError (GetRecipe (Env.quiet exampleId 0) emptyWorld
      "not-a-valid-id-format").response.status = false := by
  decide

/-! ## Create, then fetch -/

/-- Claim C9, as the code has it: if `NewRecipe` answers 201 with record `r`,
    then the id of `r` renders as 24 hex digits, the name, tags, ingredients and
    instructions of `r` are the draft's, and an immediately following `GetRecipe`
    for that id, its store query going through, answers 200 with `r` except that
    `publishedAt` is cut to whole milliseconds; so with `r` itself when the
    instant of `r` is a whole number of milliseconds. -/
theorem NewRecipe_then_GetRecipe (env env2 : Env) (w : World) (dto : recipeDTO) (r : Recipe)
    (hnew : (NewRecipe env w (.ok dto)).response = ⟨201, .recipe r⟩)
    (hmongo : env2.mongoErr = none) :
    r.Id.Hex.length = 24 ∧
    r.Name = dto.Name ∧ r.Tags = dto.Tags ∧ r.Ingredients = dto.Ingredients ∧
    r.Instructions = dto.Instructions ∧
    (GetRecipe env2 (NewRecipe env w (.ok dto)).world r.Id.Hex).response =
      ⟨200, .recipe { r with PublishedAt := r.PublishedAt / 1000000 * 1000000 }⟩ ∧
    (r.PublishedAt % 1000000 = 0 →
      (GetRecipe env2 (NewRecipe env w (.ok dto)).world r.Id.Hex).response =
        ⟨200, .recipe r⟩) := by
  obtain ⟨hr, hfresh, hstore⟩ := NewRecipe_created env w dto r hnew
  have hget : (GetRecipe env2 (NewRecipe env w (.ok dto)).world r.Id.Hex).response =
      ⟨200, .recipe { r with PublishedAt := r.PublishedAt / 1000000 * 1000000 }⟩ := by
    simp only [GetRecipe, ObjectIDFromHex_Hex, mongoFindOne, hmongo, hstore,
      find_appended _ _ hfresh, Decode_encodeRecipe]
    rfl
  refine ⟨Hex_length _, by rw [hr], by rw [hr], by rw [hr], by rw [hr], hget, ?_⟩
  intro hms
  rw [hget]
  have : r.PublishedAt / 1000000 * 1000000 = r.PublishedAt := by omega
  rw [this]

/-- Claim C9 as amended, at the draft of the scenario. -/
theorem NewRecipe_then_GetRecipe_witness :
    (NewRecipe (Env.quiet exampleId 1700000000123456789) emptyWorld (.ok soup)).response
      = ⟨201, .recipe soupRecipe⟩ ∧
    (GetRecipe (Env.quiet otherId 0)
      (NewRecipe (Env.quiet exampleId 1700000000123456789) emptyWorld (.ok soup)).world
      soupRecipe.Id.Hex).response =
      ⟨200, .recipe { soupRecipe with
        PublishedAt := soupRecipe.PublishedAt / 1000000 * 1000000 }⟩ :=
  ⟨rfl,
   (NewRecipe_then_GetRecipe (Env.quiet exampleId 1700000000123456789) (Env.quiet otherId 0)
      emptyWorld soup soupRecipe rfl rfl).2.2.2.2.2.1⟩

/-- Claim C9 as stated fails: the create answers 201 with a record whose instant
    is no whole number of milliseconds, and the fetch that follows does not answer
    with that record. -/
theorem NewRecipe_then_GetRecipe_counterexample :
    (NewRecipe (Env.quiet exampleId 1700000000123456789) emptyWorld (.ok soup)).response
      = ⟨201, .recipe soupRecipe⟩ ∧
    (GetRecipe (Env.quiet otherId 0)
      (NewRecipe (Env.quiet exampleId 1700000000123456789) emptyWorld (.ok soup)).world
      soupRecipe.Id.Hex).response ≠ ⟨200, .recipe soupRecipe⟩ := by
  decide

end Recipes
